import Mathlib

/-!
Verification of `bioutils/digests.py`: sequence normalization and the five
digest functions (`seq_seguid`, `seq_seqhash`, `sha512t`, `seq_md5`,
`seq_sha1`, `seq_sha512`).

Sequences are modelled as lists of byte values (`Nat`, each `< 256` for
meaningful inputs); a Python `str`-or-`bytes` argument is modelled by the
`SeqInput` sum, with `str.encode()` modelled as UTF-8 encoding.  The hash
primitives the module calls through `hashlib` (MD5, SHA-1, SHA-512) and the
encoders from `base64` are embedded from their published standards
(RFC 1321, RFC 3174, FIPS 180-4, RFC 4648); all arithmetic is plain `Nat`
with explicit reduction modulo 2^32 / 2^64.
-/

set_option maxRecDepth 100000

namespace Bioutils

/-- Sequence of byte values; a meaningful byte is `< 256`. -/
abbrev Bytes := List Nat

/-- UTF-8 encoding of a single Unicode code point, as Python's
`str.encode()` produces it. -/
def utf8Bytes (c : Nat) : List Nat :=
  if c < 128 then [c]
  else if c < 2048 then [192 + (c >>> 6), 128 + (c &&& 63)]
  else if c < 65536 then
    [224 + (c >>> 12), 128 + ((c >>> 6) &&& 63), 128 + (c &&& 63)]
  else
    [240 + (c >>> 18), 128 + ((c >>> 12) &&& 63), 128 + ((c >>> 6) &&& 63),
      128 + (c &&& 63)]

/-- UTF-8 encoding of a whole string: Python's `str.encode()`. -/
def strBytes (s : String) : Bytes :=
  s.data.foldr (fun c acc => utf8Bytes c.toNat ++ acc) []

/-- A Python argument that may be `str` or `bytes`. -/
inductive SeqInput where
  | bytes (b : Bytes)
  | text (s : String)

/-- Embeds `_to_binary`: a `bytes` value passes through, a `str` is encoded. -/
def to_binary : SeqInput → Bytes
  | .bytes b => b
  | .text s => strBytes s

/-- The byte class of the regex `[\s\*]` compiled over bytes: ASCII
whitespace (space, tab, linefeed, vertical tab, form feed, carriage return)
or the asterisk. -/
def matchesWsStar (b : Nat) : Bool :=
  b == 32 || b == 9 || b == 10 || b == 11 || b == 12 || b == 13 || b == 42

/-- Embeds `bytes.upper()` on one byte: ASCII `a`-`z` loses 32, every other
byte is unchanged. -/
def upperByte (b : Nat) : Nat :=
  if 97 ≤ b ∧ b ≤ 122 then b - 32 else b

/-- Byte-level body of `normalize_sequence`: `re.sub(b"[\s\*]", b"", seq)`
deletes the matching bytes, then `.upper()` maps each survivor. -/
def normalize_bytes (b : Bytes) : Bytes :=
  (b.filter (fun c => !matchesWsStar c)).map upperByte

/-- Embeds `normalize_sequence`: coerce to bytes, delete whitespace and
asterisks, uppercase. -/
def normalize_sequence (seq : SeqInput) : Bytes :=
  normalize_bytes (to_binary seq)

/-- Standard base64 alphabet (RFC 4648 section 4). -/
def stdAlphabet : List Char :=
  "ABCDEFGHIJKLMNOPQRSTUVWXYZabcdefghijklmnopqrstuvwxyz0123456789+/".data

/-- URL-safe base64 alphabet (RFC 4648 section 5): `-` and `_` replace
`+` and `/`. -/
def urlAlphabet : List Char :=
  "ABCDEFGHIJKLMNOPQRSTUVWXYZabcdefghijklmnopqrstuvwxyz0123456789-_".data

/-- Character of an alphabet at a 6-bit index. -/
def b64Char (alpha : List Char) (i : Nat) : Char :=
  alpha.getD i 'A'

/-- Base64 encoding over a given alphabet, three input bytes per four output
characters, `=`-padded final group (RFC 4648). -/
def b64encodeChars (alpha : List Char) : Bytes → List Char
  | [] => []
  | [b1] =>
    let n := (b1 % 256) * 65536
    [b64Char alpha (n >>> 18), b64Char alpha ((n >>> 12) % 64), '=', '=']
  | [b1, b2] =>
    let n := (b1 % 256) * 65536 + (b2 % 256) * 256
    [b64Char alpha (n >>> 18), b64Char alpha ((n >>> 12) % 64),
      b64Char alpha ((n >>> 6) % 64), '=']
  | b1 :: b2 :: b3 :: rest =>
    let n := (b1 % 256) * 65536 + (b2 % 256) * 256 + b3 % 256
    b64Char alpha (n >>> 18) :: b64Char alpha ((n >>> 12) % 64) ::
      b64Char alpha ((n >>> 6) % 64) :: b64Char alpha (n % 64) ::
      b64encodeChars alpha rest

/-- Embeds `base64.b64encode` followed by `.decode("ascii")`. -/
def b64encode (data : Bytes) : String :=
  ⟨b64encodeChars stdAlphabet data⟩

/-- Embeds `base64.urlsafe_b64encode` followed by `.decode("ascii")`. -/
def urlsafe_b64encode (data : Bytes) : String :=
  ⟨b64encodeChars urlAlphabet data⟩

/-- Embeds `str.rstrip('=')`: remove every trailing `=`. -/
def rstripEq (s : String) : String :=
  ⟨(s.data.reverse.dropWhile (fun c => c == '=')).reverse⟩

/-- Lowercase hexadecimal digit. -/
def hexChar (n : Nat) : Char :=
  "0123456789abcdef".data.getD n '0'

/-- Lowercase hex rendering of a byte list, two digits per byte. -/
def hexChars (l : Bytes) : List Char :=
  l.foldr (fun b acc => hexChar ((b / 16) % 16) :: hexChar (b % 16) :: acc) []

/-- Embeds `.hexdigest()` applied to a digest byte string. -/
def hexdigest (l : Bytes) : String :=
  ⟨hexChars l⟩

/-! ## Word arithmetic for the hash compression functions -/

/-- Reduction modulo 2^32. -/
def mask32 (x : Nat) : Nat := x % 4294967296

/-- Reduction modulo 2^64. -/
def mask64 (x : Nat) : Nat := x % 18446744073709551616

/-- Bitwise complement of a 32-bit word. -/
def compl32 (x : Nat) : Nat := 4294967295 - mask32 x

/-- Bitwise complement of a 64-bit word. -/
def compl64 (x : Nat) : Nat := 18446744073709551615 - mask64 x

/-- Left rotation of a 32-bit word. -/
def rotl32 (x n : Nat) : Nat :=
  mask32 ((x <<< n) ||| (x >>> (32 - n)))

/-- Right rotation of a 64-bit word. -/
def rotr64 (x n : Nat) : Nat :=
  mask64 ((x >>> n) ||| (x <<< (64 - n)))

/-- Little-endian byte rendering of a word on `k` bytes. -/
def leBytes (k n : Nat) : Bytes :=
  (List.range k).map (fun i => (n >>> (8 * i)) % 256)

/-- Big-endian byte rendering of a word on `k` bytes. -/
def beBytes (k n : Nat) : Bytes :=
  (leBytes k n).reverse

/-- Little-endian 32-bit word number `i` of a block. -/
def leWord (blk : Bytes) (i : Nat) : Nat :=
  blk.getD (4 * i) 0 % 256 + 256 * (blk.getD (4 * i + 1) 0 % 256)
    + 65536 * (blk.getD (4 * i + 2) 0 % 256)
    + 16777216 * (blk.getD (4 * i + 3) 0 % 256)

/-- Big-endian 32-bit word number `i` of a block. -/
def beWord (blk : Bytes) (i : Nat) : Nat :=
  16777216 * (blk.getD (4 * i) 0 % 256) + 65536 * (blk.getD (4 * i + 1) 0 % 256)
    + 256 * (blk.getD (4 * i + 2) 0 % 256) + blk.getD (4 * i + 3) 0 % 256

/-- Big-endian 64-bit word number `i` of a block. -/
def beWord8 (blk : Bytes) (i : Nat) : Nat :=
  (List.range 8).foldl (fun acc j => acc * 256 + blk.getD (8 * i + j) 0 % 256) 0

/-- Number of zero bytes inserted by Merkle-Damgard padding: one `0x80`
byte, then zeros until `lenBytes` length bytes complete a block. -/
def padZeros (len blockSize lenBytes : Nat) : Nat :=
  (blockSize - ((len + 1 + lenBytes) % blockSize)) % blockSize

/-- Splitting a list into blocks of `size` bytes, with an explicit fuel that
the callers instantiate with the list length. -/
def chunksAux (size : Nat) : Nat → Bytes → List Bytes
  | 0, _ => []
  | _, [] => []
  | fuel + 1, l => l.take size :: chunksAux size fuel (l.drop size)

/-- Splitting a list into blocks of `size` bytes. -/
def chunks (size : Nat) (l : Bytes) : List Bytes :=
  chunksAux size l.length l

/-! ## MD5 (RFC 1321) -/

/-- MD5 sine-derived round constants. -/
def md5K : List Nat :=
  [3614090360, 3905402710, 606105819, 3250441966, 4118548399, 1200080426,
   2821735955, 4249261313, 1770035416, 2336552879, 4294925233, 2304563134,
   1804603682, 4254626195, 2792965006, 1236535329, 4129170786, 3225465664,
   643717713, 3921069994, 3593408605, 38016083, 3634488961, 3889429448,
   568446438, 3275163606, 4107603335, 1163531501, 2850285829, 4243563512,
   1735328473, 2368359562, 4294588738, 2272392833, 1839030562, 4259657740,
   2763975236, 1272893353, 4139469664, 3200236656, 681279174, 3936430074,
   3572445317, 76029189, 3654602809, 3873151461, 530742520, 3299628645,
   4096336452, 1126891415, 2878612391, 4237533241, 1700485571, 2399980690,
   4293915773, 2240044497, 1873313359, 4264355552, 2734768916, 1309151649,
   4149444226, 3174756917, 718787259, 3951481745]

/-- MD5 per-round left-rotation amounts. -/
def md5S : List Nat :=
  [7, 12, 17, 22, 7, 12, 17, 22, 7, 12, 17, 22, 7, 12, 17, 22,
   5, 9, 14, 20, 5, 9, 14, 20, 5, 9, 14, 20, 5, 9, 14, 20,
   4, 11, 16, 23, 4, 11, 16, 23, 4, 11, 16, 23, 4, 11, 16, 23,
   6, 10, 15, 21, 6, 10, 15, 21, 6, 10, 15, 21, 6, 10, 15, 21]

/-- Four-word hash state (MD5). -/
structure Words4 where
  a : Nat
  b : Nat
  c : Nat
  d : Nat

/-- MD5 round mixing function, by round index. -/
def md5F (i b c d : Nat) : Nat :=
  if i < 16 then (b &&& c) ||| (compl32 b &&& d)
  else if i < 32 then (d &&& b) ||| (compl32 d &&& c)
  else if i < 48 then b ^^^ c ^^^ d
  else c ^^^ (b ||| compl32 d)

/-- MD5 message-word index, by round index. -/
def md5G (i : Nat) : Nat :=
  if i < 16 then i
  else if i < 32 then (5 * i + 1) % 16
  else if i < 48 then (3 * i + 5) % 16
  else (7 * i) % 16

/-- One MD5 round. -/
def md5Step (m : List Nat) (s : Words4) (i : Nat) : Words4 :=
  let t := mask32 (md5F i s.b s.c s.d + s.a + md5K.getD i 0 + m.getD (md5G i) 0)
  ⟨s.d, mask32 (s.b + rotl32 t (md5S.getD i 0)), s.b, s.c⟩

/-- MD5 compression of one 64-byte block into the chaining state. -/
def md5Compress (s : Words4) (blk : Bytes) : Words4 :=
  let m := (List.range 16).map (leWord blk)
  let r := (List.range 64).foldl (md5Step m) s
  ⟨mask32 (s.a + r.a), mask32 (s.b + r.b), mask32 (s.c + r.c), mask32 (s.d + r.d)⟩

/-- MD5 padding: `0x80`, zeros, 8-byte little-endian bit length. -/
def md5Pad (msg : Bytes) : Bytes :=
  msg ++ [128] ++ List.replicate (padZeros msg.length 64 8) 0
    ++ leBytes 8 (mask64 (msg.length * 8))

/-- MD5 digest (16 bytes) of a byte string. -/
def md5Bytes (msg : Bytes) : Bytes :=
  let s := (chunks 64 (md5Pad msg)).foldl md5Compress
    ⟨1732584193, 4023233417, 2562383102, 271733878⟩
  leBytes 4 s.a ++ leBytes 4 s.b ++ leBytes 4 s.c ++ leBytes 4 s.d

/-- Embeds `seq_md5`: optional normalization, then the MD5 hex digest. -/
def seq_md5 (seq : SeqInput) (normalize : Bool) : String :=
  let b := to_binary seq
  let nb := if normalize then normalize_bytes b else b
  hexdigest (md5Bytes nb)

/-! ## SHA-1 (RFC 3174) -/

/-- Five-word hash state (SHA-1). -/
structure Words5 where
  a : Nat
  b : Nat
  c : Nat
  d : Nat
  e : Nat

/-- SHA-1 message schedule: sixteen big-endian block words extended to
eighty by rotated exclusive-ors. -/
def sha1Schedule (blk : Bytes) : List Nat :=
  (List.range 64).foldl
    (fun w _ =>
      w ++ [rotl32 (w.getD (w.length - 3) 0 ^^^ w.getD (w.length - 8) 0
        ^^^ w.getD (w.length - 14) 0 ^^^ w.getD (w.length - 16) 0) 1])
    ((List.range 16).map (beWord blk))

/-- One SHA-1 round. -/
def sha1Step (w : List Nat) (s : Words5) (i : Nat) : Words5 :=
  let f :=
    if i < 20 then (s.b &&& s.c) ||| (compl32 s.b &&& s.d)
    else if i < 40 then s.b ^^^ s.c ^^^ s.d
    else if i < 60 then (s.b &&& s.c) ||| (s.b &&& s.d) ||| (s.c &&& s.d)
    else s.b ^^^ s.c ^^^ s.d
  let k :=
    if i < 20 then 1518500249
    else if i < 40 then 1859775393
    else if i < 60 then 2400959708
    else 3395469782
  let t := mask32 (rotl32 s.a 5 + f + s.e + k + w.getD i 0)
  ⟨t, s.a, rotl32 s.b 30, s.c, s.d⟩

/-- SHA-1 compression of one 64-byte block into the chaining state. -/
def sha1Compress (s : Words5) (blk : Bytes) : Words5 :=
  let w := sha1Schedule blk
  let r := (List.range 80).foldl (sha1Step w) s
  ⟨mask32 (s.a + r.a), mask32 (s.b + r.b), mask32 (s.c + r.c),
    mask32 (s.d + r.d), mask32 (s.e + r.e)⟩

/-- SHA-1 padding: `0x80`, zeros, 8-byte big-endian bit length. -/
def sha1Pad (msg : Bytes) : Bytes :=
  msg ++ [128] ++ List.replicate (padZeros msg.length 64 8) 0
    ++ beBytes 8 (mask64 (msg.length * 8))

/-- SHA-1 digest (20 bytes) of a byte string. -/
def sha1Bytes (msg : Bytes) : Bytes :=
  let s := (chunks 64 (sha1Pad msg)).foldl sha1Compress
    ⟨1732584193, 4023233417, 2562383102, 271733878, 3285377520⟩
  beBytes 4 s.a ++ beBytes 4 s.b ++ beBytes 4 s.c ++ beBytes 4 s.d ++ beBytes 4 s.e

/-! ## SHA-512 (FIPS 180-4) -/

/-- SHA-512 round constants: 64-bit fractional parts of the cube roots of
the first eighty primes. -/
def sha512K : List Nat :=
  [4794697086780616226, 8158064640168781261, 13096744586834688815,
   16840607885511220156, 4131703408338449720, 6480981068601479193,
   10538285296894168987, 12329834152419229976, 15566598209576043074,
   1334009975649890238, 2608012711638119052, 6128411473006802146,
   8268148722764581231, 9286055187155687089, 11230858885718282805,
   13951009754708518548, 16472876342353939154, 17275323862435702243,
   1135362057144423861, 2597628984639134821, 3308224258029322869,
   5365058923640841347, 6679025012923562964, 8573033837759648693,
   10970295158949994411, 12119686244451234320, 12683024718118986047,
   13788192230050041572, 14330467153632333762, 15395433587784984357,
   489312712824947311, 1452737877330783856, 2861767655752347644,
   3322285676063803686, 5560940570517711597, 5996557281743188959,
   7280758554555802590, 8532644243296465576, 9350256976987008742,
   10552545826968843579, 11727347734174303076, 12113106623233404929,
   14000437183269869457, 14369950271660146224, 15101387698204529176,
   15463397548674623760, 17586052441742319658, 1182934255886127544,
   1847814050463011016, 2177327727835720531, 2830643537854262169,
   3796741975233480872, 4115178125766777443, 5681478168544905931,
   6601373596472566643, 7507060721942968483, 8399075790359081724,
   8693463985226723168, 9568029438360202098, 10144078919501101548,
   10430055236837252648, 11840083180663258601, 13761210420658862357,
   14299343276471374635, 14566680578165727644, 15097957966210449927,
   16922976911328602910, 17689382322260857208, 500013540394364858,
   748580250866718886, 1242879168328830382, 1977374033974150939,
   2944078676154940804, 3659926193048069267, 4368137639120453308,
   4836135668995329356, 5532061633213252278, 6448918945643986474,
   6902733635092675308, 7801388544844847127]

/-- Eight-word hash state (SHA-512). -/
structure Words8 where
  a : Nat
  b : Nat
  c : Nat
  d : Nat
  e : Nat
  f : Nat
  g : Nat
  h : Nat

/-- SHA-512 message schedule: sixteen big-endian 64-bit block words extended
to eighty. -/
def sha512Schedule (blk : Bytes) : List Nat :=
  (List.range 64).foldl
    (fun w _ =>
      let w15 := w.getD (w.length - 15) 0
      let w2 := w.getD (w.length - 2) 0
      let s0 := rotr64 w15 1 ^^^ rotr64 w15 8 ^^^ (w15 >>> 7)
      let s1 := rotr64 w2 19 ^^^ rotr64 w2 61 ^^^ (w2 >>> 6)
      w ++ [mask64 (w.getD (w.length - 16) 0 + s0 + w.getD (w.length - 7) 0 + s1)])
    ((List.range 16).map (beWord8 blk))

/-- One SHA-512 round. -/
def sha512Step (w : List Nat) (s : Words8) (i : Nat) : Words8 :=
  let bigS1 := rotr64 s.e 14 ^^^ rotr64 s.e 18 ^^^ rotr64 s.e 41
  let ch := (s.e &&& s.f) ^^^ (compl64 s.e &&& s.g)
  let t1 := mask64 (s.h + bigS1 + ch + sha512K.getD i 0 + w.getD i 0)
  let bigS0 := rotr64 s.a 28 ^^^ rotr64 s.a 34 ^^^ rotr64 s.a 39
  let maj := (s.a &&& s.b) ^^^ (s.a &&& s.c) ^^^ (s.b &&& s.c)
  let t2 := mask64 (bigS0 + maj)
  ⟨mask64 (t1 + t2), s.a, s.b, s.c, mask64 (s.d + t1), s.e, s.f, s.g⟩

/-- SHA-512 compression of one 128-byte block into the chaining state. -/
def sha512Compress (s : Words8) (blk : Bytes) : Words8 :=
  let w := sha512Schedule blk
  let r := (List.range 80).foldl (sha512Step w) s
  ⟨mask64 (s.a + r.a), mask64 (s.b + r.b), mask64 (s.c + r.c),
    mask64 (s.d + r.d), mask64 (s.e + r.e), mask64 (s.f + r.f),
    mask64 (s.g + r.g), mask64 (s.h + r.h)⟩

/-- SHA-512 padding: `0x80`, zeros, 16-byte big-endian bit length. -/
def sha512Pad (msg : Bytes) : Bytes :=
  msg ++ [128] ++ List.replicate (padZeros msg.length 128 16) 0
    ++ beBytes 16 ((msg.length * 8) % 340282366920938463463374607431768211456)

/-- SHA-512 digest (64 bytes) of a byte string. -/
def sha512Bytes (msg : Bytes) : Bytes :=
  let s := (chunks 128 (sha512Pad msg)).foldl sha512Compress
    ⟨7640891576956012808, 13503953896175478587, 4354685564936845355,
     11912009170470909681, 5840696475078001361, 11170449401992604703,
     2270897969802886507, 6620516959819538809⟩
  beBytes 8 s.a ++ beBytes 8 s.b ++ beBytes 8 s.c ++ beBytes 8 s.d
    ++ beBytes 8 s.e ++ beBytes 8 s.f ++ beBytes 8 s.g ++ beBytes 8 s.h

/-! ## The remaining digest functions of the module -/

/-- Embeds `seq_seguid`: optional normalization, SHA-1, standard base64,
trailing `=` stripped. -/
def seq_seguid (seq : SeqInput) (normalize : Bool) : String :=
  let b := to_binary seq
  let nb := if normalize then normalize_bytes b else b
  rstripEq (b64encode (sha1Bytes nb))

/-- Embeds `sha512t`: URL-safe base64 of the first `digest_size` bytes of
the SHA-512 digest, no normalization, padding kept. -/
def sha512t (data : Bytes) (digest_size : Nat) : String :=
  urlsafe_b64encode ((sha512Bytes data).take digest_size)

/-- Embeds `seq_seqhash`: optional normalization, then
`sha512t(seq, digest_size=24)` — the source passes the literal 24, leaving
the function's own `digest_size` parameter unused. -/
def seq_seqhash (seq : SeqInput) (normalize : Bool) (digest_size : Nat) : String :=
  let b := to_binary seq
  let nb := if normalize then normalize_bytes b else b
  sha512t nb 24

/-- Embeds `seq_sha1`: optional normalization, then the SHA-1 hex digest. -/
def seq_sha1 (seq : SeqInput) (normalize : Bool) : String :=
  let b := to_binary seq
  let nb := if normalize then normalize_bytes b else b
  hexdigest (sha1Bytes nb)

/-- Embeds `seq_sha512`: optional normalization, then the SHA-512 hex
digest. -/
def seq_sha512 (seq : SeqInput) (normalize : Bool) : String :=
  let b := to_binary seq
  let nb := if normalize then normalize_bytes b else b
  hexdigest (sha512Bytes nb)

/-! ## Specification-side definitions, for the refinement claims -/

/-- Byte deleted by normalization as the specification words it: one of the
six ASCII whitespace characters — space, tab, newline, carriage return,
form feed, vertical tab — or the asterisk. -/
def specDeleted (b : Nat) : Bool :=
  b == 32 || b == 9 || b == 10 || b == 13 || b == 12 || b == 11 || b == 42

/-- Uppercasing as the specification words it: the ASCII letters `a`-`z`
move to `A`-`Z`, every other byte passes through unaffected. -/
def specUpper (b : Nat) : Nat :=
  if 97 ≤ b ∧ b ≤ 122 then b - 32 else b

/-- Normalization as the specification words it: coerce to bytes, delete
every whitespace-or-asterisk byte, uppercase the remaining bytes, keeping
their relative order. -/
def normalizeSpec (x : SeqInput) : Bytes :=
  ((to_binary x).filter (fun b => !specDeleted b)).map specUpper

/-- Truncated-SHA-512 digest as the specification words it: SHA-512 of the
already-final bytes, first `digest_size` bytes, URL-safe base64, with the
padding the encoder produces. -/
def sha512tSpec (data : Bytes) (digest_size : Nat) : String :=
  urlsafe_b64encode ((sha512Bytes data).take digest_size)

/-- Edits under which the digests are claimed invariant: positionwise case
changes of letters, and insertion or removal of whitespace-or-asterisk
bytes at any position. -/
inductive SeqEquiv : Bytes → Bytes → Prop where
  | nil : SeqEquiv [] []
  | cons (b b' : Nat) (s s' : Bytes) (hb : upperByte b = upperByte b')
      (h : SeqEquiv s s') : SeqEquiv (b :: s) (b' :: s')
  | insL (b : Nat) (s s' : Bytes) (hb : matchesWsStar b = true)
      (h : SeqEquiv s s') : SeqEquiv (b :: s) s'
  | insR (b : Nat) (s s' : Bytes) (hb : matchesWsStar b = true)
      (h : SeqEquiv s s') : SeqEquiv s (b :: s')

/-- Number of `=` padding characters base64 appends for `n` input bytes. -/
def b64PadCount (n : Nat) : Nat :=
  (3 - n % 3) % 3

/-! ## Lemmas about normalization -/

/-- Uppercasing a byte twice is the same as uppercasing it once. -/
theorem upperByte_idem (b : Nat) : upperByte (upperByte b) = upperByte b := by
  unfold upperByte
  split <;> (try split) <;> omega

/-- Uppercasing does not move a byte into or out of the deleted class. -/
theorem matchesWsStar_upperByte (b : Nat) :
    matchesWsStar (upperByte b) = matchesWsStar b := by
  unfold upperByte
  split
  · rename_i h
    have h1 : matchesWsStar (b - 32) = false := by
      simp only [matchesWsStar, Bool.or_eq_false_iff, beq_eq_false_iff_ne]
      omega
    have h2 : matchesWsStar b = false := by
      simp only [matchesWsStar, Bool.or_eq_false_iff, beq_eq_false_iff_ne]
      omega
    rw [h1, h2]
  · rfl

/-- A deleted-class byte is already uppercase. -/
theorem upperByte_of_matchesWsStar (b : Nat) (h : matchesWsStar b = true) :
    upperByte b = b := by
  simp only [matchesWsStar, Bool.or_eq_true, beq_iff_eq] at h
  unfold upperByte
  split <;> omega

/-- Unfolding of byte-level normalization on a cons cell. -/
theorem normalize_bytes_cons (b : Nat) (t : Bytes) :
    normalize_bytes (b :: t) =
      if matchesWsStar b then normalize_bytes t
      else upperByte b :: normalize_bytes t := by
  by_cases h : matchesWsStar b <;>
    simp [normalize_bytes, List.filter_cons, h]

/-- Byte-level normalization is idempotent. -/
theorem normalize_bytes_idem (l : Bytes) :
    normalize_bytes (normalize_bytes l) = normalize_bytes l := by
  induction l with
  | nil => rfl
  | cons b t ih =>
    rw [normalize_bytes_cons]
    by_cases h : matchesWsStar b
    · rw [if_pos h, ih]
    · rw [if_neg h, normalize_bytes_cons, matchesWsStar_upperByte,
        if_neg h, upperByte_idem, ih]

/-- Equivalent sequences normalize to the same byte string. -/
theorem SeqEquiv.normalize_eq {s s' : Bytes} (h : SeqEquiv s s') :
    normalize_bytes s = normalize_bytes s' := by
  induction h with
  | nil => rfl
  | cons b b' s s' hb h ih =>
    have hm : matchesWsStar b = matchesWsStar b' := by
      rw [← matchesWsStar_upperByte b, ← matchesWsStar_upperByte b', hb]
    rw [normalize_bytes_cons, normalize_bytes_cons, ih, hm, hb]
  | insL b s s' hb h ih =>
    rw [normalize_bytes_cons, if_pos hb, ih]
  | insR b s s' hb h ih =>
    rw [normalize_bytes_cons, if_pos hb, ih]

/-! ## Lemmas about base64 -/

/-- Lookup with a non-padding default in a padding-free alphabet never
yields the padding character. -/
theorem getD_ne_pad (l : List Char) (d : Char) (hd : d ≠ '=')
    (h : ∀ c ∈ l, c ≠ '=') : ∀ i, l.getD i d ≠ '=' := by
  induction l with
  | nil => intro i; simpa [List.getD] using hd
  | cons c t ih =>
    intro i
    cases i with
    | zero => simpa [List.getD] using h c (List.mem_cons_self c t)
    | succ j =>
      have := ih (fun x hx => h x (List.mem_cons_of_mem c hx)) j
      exact this

/-- The standard alphabet never produces the padding character. -/
theorem stdAlphabet_ne_pad : ∀ i, b64Char stdAlphabet i ≠ '=' := by
  have h : ∀ c ∈ stdAlphabet, c ≠ '=' := by decide
  exact getD_ne_pad stdAlphabet 'A' (by decide) h

/-- The URL-safe alphabet never produces the padding character. -/
theorem urlAlphabet_ne_pad : ∀ i, b64Char urlAlphabet i ≠ '=' := by
  have h : ∀ c ∈ urlAlphabet, c ≠ '=' := by decide
  exact getD_ne_pad urlAlphabet 'A' (by decide) h

/-- Output length of the base64 encoder: four characters per started
three-byte group. -/
theorem b64encodeChars_length (alpha : List Char) :
    ∀ l : Bytes, (b64encodeChars alpha l).length = 4 * ((l.length + 2) / 3)
  | [] => by simp [b64encodeChars]
  | [b1] => by simp [b64encodeChars]
  | [b1, b2] => by simp [b64encodeChars]
  | b1 :: b2 :: b3 :: rest => by
    have ih := b64encodeChars_length alpha rest
    simp only [b64encodeChars, List.length_cons, ih]
    omega

/-- Structure of the base64 output: a padding-free body followed by
exactly `b64PadCount` padding characters. -/
theorem b64encodeChars_split (alpha : List Char)
    (hne : ∀ i, b64Char alpha i ≠ '=') :
    ∀ l : Bytes, ∃ body : List Char,
      b64encodeChars alpha l = body ++ List.replicate (b64PadCount l.length) '='
        ∧ (∀ c ∈ body, c ≠ '=')
        ∧ body.length + b64PadCount l.length = 4 * ((l.length + 2) / 3)
  | [] => ⟨[], by simp [b64encodeChars, b64PadCount]⟩
  | [b1] => by
    refine ⟨[b64Char alpha (((b1 % 256) * 65536) >>> 18),
      b64Char alpha ((((b1 % 256) * 65536) >>> 12) % 64)], ?_, ?_, ?_⟩
    · simp [b64encodeChars, b64PadCount, List.replicate]
    · intro c hc
      rcases List.mem_pair.mp hc with h | h <;> rw [h] <;> exact hne _
    · simp [b64PadCount]
  | [b1, b2] => by
    refine ⟨[b64Char alpha (((b1 % 256) * 65536 + (b2 % 256) * 256) >>> 18),
      b64Char alpha ((((b1 % 256) * 65536 + (b2 % 256) * 256) >>> 12) % 64),
      b64Char alpha ((((b1 % 256) * 65536 + (b2 % 256) * 256) >>> 6) % 64)],
      ?_, ?_, ?_⟩
    · simp [b64encodeChars, b64PadCount, List.replicate]
    · intro c hc
      simp only [List.mem_cons, List.not_mem_nil, or_false] at hc
      rcases hc with h | h | h <;> rw [h] <;> exact hne _
    · simp [b64PadCount]
  | b1 :: b2 :: b3 :: rest => by
    obtain ⟨body, he, hm, hl⟩ := b64encodeChars_split alpha hne rest
    refine ⟨b64Char alpha (((b1 % 256) * 65536 + (b2 % 256) * 256 + b3 % 256) >>> 18)
      :: b64Char alpha ((((b1 % 256) * 65536 + (b2 % 256) * 256 + b3 % 256) >>> 12) % 64)
      :: b64Char alpha ((((b1 % 256) * 65536 + (b2 % 256) * 256 + b3 % 256) >>> 6) % 64)
      :: b64Char alpha (((b1 % 256) * 65536 + (b2 % 256) * 256 + b3 % 256) % 64)
      :: body, ?_, ?_, ?_⟩
    · have hp : b64PadCount (b1 :: b2 :: b3 :: rest).length
          = b64PadCount rest.length := by
        simp only [b64PadCount, List.length_cons]
        omega
      rw [hp]
      simp only [b64encodeChars, he, List.cons_append]
    · intro c hc
      simp only [List.mem_cons] at hc
      rcases hc with h | h | h | h | h
      · rw [h]; exact hne _
      · rw [h]; exact hne _
      · rw [h]; exact hne _
      · rw [h]; exact hne _
      · exact hm c h
    · simp only [b64PadCount, List.length_cons] at hl ⊢
      omega

/-- Base64 output of a whole number of three-byte groups has no padding
character. -/
theorem b64_no_pad (alpha : List Char) (hne : ∀ i, b64Char alpha i ≠ '=')
    (l : Bytes) (h : l.length % 3 = 0) : '=' ∉ b64encodeChars alpha l := by
  obtain ⟨body, he, hm, _⟩ := b64encodeChars_split alpha hne l
  rw [he]
  have hp : b64PadCount l.length = 0 := by simp [b64PadCount, h]
  rw [hp]
  simp only [List.replicate_zero, List.append_nil]
  intro hc
  exact hm '=' hc rfl

/-- Dropping a matching prefix of replicated characters. -/
theorem dropWhile_replicate_append (p : Char → Bool) (c : Char)
    (hp : p c = true) (k : Nat) (t : List Char) :
    (List.replicate k c ++ t).dropWhile p = t.dropWhile p := by
  induction k with
  | zero => simp
  | succ j ih =>
    rw [List.replicate_succ, List.cons_append, List.dropWhile_cons, hp, if_pos rfl, ih]

/-- A list none of whose characters match is untouched by `dropWhile`. -/
theorem dropWhile_eq_self_of_none (p : Char → Bool) (l : List Char)
    (h : ∀ c ∈ l, p c = false) : l.dropWhile p = l := by
  cases l with
  | nil => rfl
  | cons c t => simp [List.dropWhile_cons, h c (List.mem_cons_self c t)]

/-- Stripping trailing `=` from a padding-free body followed by padding
recovers exactly the body. -/
theorem rstripEq_body (body : List Char) (k : Nat)
    (h : ∀ c ∈ body, c ≠ '=') :
    (rstripEq ⟨body ++ List.replicate k '='⟩).data = body := by
  show ((body ++ List.replicate k '=').reverse.dropWhile (fun c => c == '=')).reverse
    = body
  rw [List.reverse_append, List.reverse_replicate,
    dropWhile_replicate_append _ _ (by decide),
    dropWhile_eq_self_of_none _ _ ?_, List.reverse_reverse]
  intro c hc
  exact beq_eq_false_iff_ne.mpr (h c (List.mem_reverse.mp hc))

/-! ## Digest and encoder length lemmas -/

/-- Little-endian rendering on `k` bytes has `k` bytes. -/
theorem leBytes_length (k n : Nat) : (leBytes k n).length = k := by
  simp [leBytes]

/-- Big-endian rendering on `k` bytes has `k` bytes. -/
theorem beBytes_length (k n : Nat) : (beBytes k n).length = k := by
  simp [beBytes, leBytes]

/-- The MD5 digest always has 16 bytes. -/
theorem md5Bytes_length (msg : Bytes) : (md5Bytes msg).length = 16 := by
  simp [md5Bytes, leBytes]

/-- The SHA-1 digest always has 20 bytes. -/
theorem sha1Bytes_length (msg : Bytes) : (sha1Bytes msg).length = 20 := by
  simp [sha1Bytes, beBytes, leBytes]

/-- The SHA-512 digest always has 64 bytes. -/
theorem sha512Bytes_length (msg : Bytes) : (sha512Bytes msg).length = 64 := by
  simp [sha512Bytes, beBytes, leBytes]

/-- Hex rendering has two characters per byte. -/
theorem hexChars_length (l : Bytes) : (hexChars l).length = 2 * l.length := by
  induction l with
  | nil => rfl
  | cons b t ih =>
    simp only [hexChars, List.foldr_cons, List.length_cons] at ih ⊢
    omega

/-- Hex digest length in characters. -/
theorem hexdigest_length (l : Bytes) : (hexdigest l).length = 2 * l.length := by
  show (hexChars l).length = 2 * l.length
  exact hexChars_length l

/-- URL-safe base64 output length in characters. -/
theorem urlsafe_b64encode_length (l : Bytes) :
    (urlsafe_b64encode l).length = 4 * ((l.length + 2) / 3) := by
  show (b64encodeChars urlAlphabet l).length = _
  exact b64encodeChars_length urlAlphabet l

/-- Truncating the SHA-512 digest keeps `min digest_size 64` bytes. -/
theorem sha512_take_length (msg : Bytes) (ds : Nat) :
    ((sha512Bytes msg).take ds).length = min ds 64 := by
  rw [List.length_take, sha512Bytes_length]

/-- Stripping the padding from the standard base64 encoding of a 20-byte
string leaves 27 characters, none of them `=`. -/
theorem rstrip_b64_of_twenty (l : Bytes) (h : l.length = 20) :
    '=' ∉ (rstripEq (b64encode l)).data ∧ (rstripEq (b64encode l)).length = 27 := by
  obtain ⟨body, he, hm, hl⟩ := b64encodeChars_split stdAlphabet stdAlphabet_ne_pad l
  have hpad : b64PadCount l.length = 1 := by rw [h]; rfl
  have hdata : (rstripEq (b64encode l)).data = body := by
    show (rstripEq ⟨b64encodeChars stdAlphabet l⟩).data = body
    rw [he, hpad]
    exact rstripEq_body body 1 hm
  constructor
  · rw [hdata]
    intro hc
    exact hm '=' hc rfl
  · show (rstripEq (b64encode l)).data.length = 27
    rw [hdata]
    rw [h] at hl
    simp only [b64PadCount] at hl
    omega

/-! ## Claim theorems -/

/-- C1 (code bug): `seq_seqhash` ignores its `digest_size` parameter — the
source passes the literal 24 to `sha512t` — so at `digest_size = 1` it
returns the same 32-character digest of 24 truncated bytes as at the
default, not the encoding of 1 byte that `sha512t` itself would give. -/
theorem seq_seqhash_ignores_digest_size :
    seq_seqhash (.text "ACGT") true 1 = seq_seqhash (.text "ACGT") true 24
    ∧ (seq_seqhash (.text "ACGT") true 1).length = 32
    ∧ seq_seqhash (.text "ACGT") true 1
        ≠ sha512t (normalize_sequence (.text "ACGT")) 1 :=
  ⟨rfl, by decide, by decide⟩

/-- C2: `normalize_sequence` coerces to bytes, deletes exactly the six ASCII
whitespace bytes and the asterisk, uppercases the remaining ASCII letters,
and preserves the relative order of the remaining bytes (the output is a
sublist of the uppercased input). -/
theorem normalize_sequence_spec : ∀ x : SeqInput,
    normalize_sequence x = normalizeSpec x
    ∧ List.Sublist (normalize_sequence x) ((to_binary x).map upperByte) := by
  intro x
  constructor
  · show (List.filter (fun c => !matchesWsStar c) (to_binary x)).map upperByte
      = (List.filter (fun b => !specDeleted b) (to_binary x)).map specUpper
    have hp : ∀ b ∈ to_binary x, (!matchesWsStar b) = (!specDeleted b) := by
      intro b _
      have : matchesWsStar b = specDeleted b := by
        rw [Bool.eq_iff_iff]
        simp only [matchesWsStar, specDeleted, Bool.or_eq_true, beq_iff_eq]
        tauto
      rw [this]
    rw [List.filter_congr hp]
    exact rfl
  · show List.Sublist ((List.filter (fun c => !matchesWsStar c) (to_binary x)).map upperByte)
      ((to_binary x).map upperByte)
    exact (List.filter_sublist _).map upperByte

/-- C3: with the default normalization, all five digest functions are
invariant under case changes and insertion or removal of whitespace or
asterisk bytes, and the published MD5 value witnesses this concretely. -/
theorem digests_invariant_under_equiv :
    (∀ s s' : Bytes, SeqEquiv s s' →
      seq_seguid (.bytes s) true = seq_seguid (.bytes s') true
      ∧ seq_seqhash (.bytes s) true 24 = seq_seqhash (.bytes s') true 24
      ∧ seq_md5 (.bytes s) true = seq_md5 (.bytes s') true
      ∧ seq_sha1 (.bytes s) true = seq_sha1 (.bytes s') true
      ∧ seq_sha512 (.bytes s) true = seq_sha512 (.bytes s') true)
    ∧ seq_md5 (.text "ACGT*") true = "f1f8f4bf413b16ad135722aa4591043e"
    ∧ seq_md5 (.text " A C G T ") true = "f1f8f4bf413b16ad135722aa4591043e"
    ∧ seq_md5 (.text "acgt") true = "f1f8f4bf413b16ad135722aa4591043e" := by
  refine ⟨?_, by decide, by decide, by decide⟩
  intro s s' h
  have hn := h.normalize_eq
  refine ⟨?_, ?_, ?_, ?_, ?_⟩
  · show rstripEq (b64encode (sha1Bytes (normalize_bytes s)))
      = rstripEq (b64encode (sha1Bytes (normalize_bytes s')))
    rw [hn]
  · show sha512t (normalize_bytes s) 24 = sha512t (normalize_bytes s') 24
    rw [hn]
  · show hexdigest (md5Bytes (normalize_bytes s))
      = hexdigest (md5Bytes (normalize_bytes s'))
    rw [hn]
  · show hexdigest (sha1Bytes (normalize_bytes s))
      = hexdigest (sha1Bytes (normalize_bytes s'))
    rw [hn]
  · show hexdigest (sha512Bytes (normalize_bytes s))
      = hexdigest (sha512Bytes (normalize_bytes s'))
    rw [hn]

/-- Witness for C3 at a concrete pair of equivalent sequences:
`b"acgt"` and `b"A CGT*"`-style edits give equal MD5 digests. -/
theorem digests_invariant_under_equiv_witness :
    seq_md5 (.bytes [97, 99, 103, 116]) true
      = seq_md5 (.bytes [65, 32, 67, 71, 84, 42]) true :=
  (digests_invariant_under_equiv.1 [97, 99, 103, 116] [65, 32, 67, 71, 84, 42]
    (SeqEquiv.cons 97 65 _ _ (by decide)
      (SeqEquiv.insR 32 _ _ (by decide)
        (SeqEquiv.cons 99 67 _ _ (by decide)
          (SeqEquiv.cons 103 71 _ _ (by decide)
            (SeqEquiv.cons 116 84 _ _ (by decide)
              (SeqEquiv.insR 42 _ _ (by decide) SeqEquiv.nil))))))).2.2.1

/-- C4: normalization is idempotent. -/
theorem normalize_sequence_idempotent : ∀ x : SeqInput,
    normalize_sequence (.bytes (normalize_sequence x)) = normalize_sequence x :=
  fun x => normalize_bytes_idem (to_binary x)

/-- C5: the published reference vectors for seguid and seqhash hold, with
case-insensitivity on the `ACGT` inputs. -/
theorem reference_vectors :
    seq_seguid (.text "") true = "2jmj7l5rSw0yVb/vlWAYkK/YBwk"
    ∧ seq_seguid (.text "ACGT") true = "IQiZThf2zKn/I1KtqStlEdsHYDQ"
    ∧ seq_seguid (.text "acgt") true = seq_seguid (.text "ACGT") true
    ∧ seq_seqhash (.text "") true 24 = "z4PhNX7vuL3xVChQ1m2AB9Yg5AULVxXc"
    ∧ seq_seqhash (.text "ACGT") true 24 = "aKF498dAxcJAqme6QYQ7EZ07-fiw8Kw2"
    ∧ seq_seqhash (.text "acgt") true 24 = seq_seqhash (.text "ACGT") true 24 :=
  ⟨by decide, by decide, by decide, by decide, by decide, by decide⟩

/-- C6: for every input and either normalization flag, seguid is the
standard base64 encoding of the 20-byte SHA-1 digest with all trailing `=`
stripped; the result never contains `=` and always has 27 characters. -/
theorem seq_seguid_form : ∀ (x : SeqInput) (normalize : Bool),
    seq_seguid x normalize
      = rstripEq (b64encode (sha1Bytes
          (if normalize then normalize_sequence x else to_binary x)))
    ∧ '=' ∉ (seq_seguid x normalize).data
    ∧ (seq_seguid x normalize).length = 27 := by
  intro x n
  refine ⟨by cases n <;> rfl, ?_, ?_⟩
  · exact (rstrip_b64_of_twenty
      (sha1Bytes (if n then normalize_bytes (to_binary x) else to_binary x))
      (sha1Bytes_length _)).1
  · exact (rstrip_b64_of_twenty
      (sha1Bytes (if n then normalize_bytes (to_binary x) else to_binary x))
      (sha1Bytes_length _)).2

/-- C7: `sha512t` applies no normalization and returns the URL-safe base64
encoding of the truncated digest exactly as the encoder produces it; in
particular the padding is kept (at `digest_size = 1` the output ends in
`=`), unlike seguid where it is stripped. -/
theorem sha512t_form :
    (∀ (data : Bytes) (digest_size : Nat),
      sha512t data digest_size = sha512tSpec data digest_size)
    ∧ sha512t [97] 24 ≠ sha512t (normalize_bytes [97]) 24
    ∧ '=' ∈ (sha512t [] 1).data
    ∧ '=' ∉ (rstripEq (sha512t [] 1)).data :=
  ⟨fun _ _ => rfl, by decide, by decide, by decide⟩

/-- C8: every operation is total — for every byte or text input, either
normalization flag and every digest size, each function returns a
well-formed result of its fixed output length. -/
theorem operations_total : ∀ (x : SeqInput) (n : Bool) (ds : Nat),
    (seq_md5 x n).length = 32
    ∧ (seq_sha1 x n).length = 40
    ∧ (seq_sha512 x n).length = 128
    ∧ (seq_seguid x n).length = 27
    ∧ (seq_seqhash x n ds).length = 32
    ∧ (sha512t (to_binary x) ds).length = 4 * ((min ds 64 + 2) / 3) := by
  intro x n ds
  refine ⟨?_, ?_, ?_, ?_, ?_, ?_⟩
  · show (hexdigest (md5Bytes (if n then normalize_bytes (to_binary x)
      else to_binary x))).length = 32
    rw [hexdigest_length, md5Bytes_length]
  · show (hexdigest (sha1Bytes (if n then normalize_bytes (to_binary x)
      else to_binary x))).length = 40
    rw [hexdigest_length, sha1Bytes_length]
  · show (hexdigest (sha512Bytes (if n then normalize_bytes (to_binary x)
      else to_binary x))).length = 128
    rw [hexdigest_length, sha512Bytes_length]
  · exact (rstrip_b64_of_twenty
      (sha1Bytes (if n then normalize_bytes (to_binary x) else to_binary x))
      (sha1Bytes_length _)).2
  · show (urlsafe_b64encode ((sha512Bytes (if n then normalize_bytes (to_binary x)
      else to_binary x)).take 24)).length = 32
    rw [urlsafe_b64encode_length, sha512_take_length]
    decide
  · show (urlsafe_b64encode ((sha512Bytes (to_binary x)).take ds)).length = _
    rw [urlsafe_b64encode_length, sha512_take_length]

/-- C10 counterexample: at `digest_size = 66` — divisible by 3 — the
output of `sha512t` does contain `=` padding, because the slice caps at the
64 digest bytes and 64 is not divisible by 3. -/
theorem sha512t_padding_cex :
    (3 ∣ (66 : Nat)) ∧ '=' ∈ (sha512t [] 66).data :=
  ⟨⟨22, rfl⟩, by decide⟩

/-- C10 (amended): at the default `digest_size` 24 the outputs of `sha512t`
and `seq_seqhash` have exactly 32 characters and no `=`; `=` padding can
appear in `sha512t` output only when the number of bytes actually encoded,
`min digest_size 64`, is not divisible by 3. -/
theorem sha512t_padding :
    ∀ (data : Bytes) (x : SeqInput) (n : Bool) (ds dsz : Nat),
    (sha512t data 24).length = 32
    ∧ '=' ∉ (sha512t data 24).data
    ∧ (seq_seqhash x n dsz).length = 32
    ∧ '=' ∉ (seq_seqhash x n dsz).data
    ∧ (3 ∣ min ds 64 → '=' ∉ (sha512t data ds).data) := by
  intro data x n ds dsz
  have hnopad : ∀ (l : Bytes) (k : Nat), 3 ∣ min k 64
      → '=' ∉ (sha512t l k).data := by
    intro l k hk
    show '=' ∉ b64encodeChars urlAlphabet ((sha512Bytes l).take k)
    refine b64_no_pad urlAlphabet urlAlphabet_ne_pad _ ?_
    rw [sha512_take_length]
    omega
  refine ⟨?_, ?_, ?_, ?_, hnopad data ds⟩
  · show (urlsafe_b64encode ((sha512Bytes data).take 24)).length = 32
    rw [urlsafe_b64encode_length, sha512_take_length]
    decide
  · exact hnopad data 24 ⟨8, rfl⟩
  · show (urlsafe_b64encode ((sha512Bytes (if n then normalize_bytes (to_binary x)
      else to_binary x)).take 24)).length = 32
    rw [urlsafe_b64encode_length, sha512_take_length]
    decide
  · exact hnopad (if n then normalize_bytes (to_binary x) else to_binary x) 24 ⟨8, rfl⟩

/-- Witness for the amended C10 at `digest_size = 6`. -/
theorem sha512t_padding_witness : '=' ∉ (sha512t [] 6).data :=
  (sha512t_padding [] (.bytes []) true 6 24).2.2.2.2 ⟨2, rfl⟩

end Bioutils
